import Mathlib

/-!
Shallow embedding of `src/ipo_email.py` (IPOTracker).

The script is a linear pipeline: fetch an HTML IPO-calendar page and
extract rows (`get_upcoming_ipos`), keep rows whose date lies in a
forward window (`filter_upcoming`, using `parse_date` =
`datetime.strptime(s, "%b %d, %Y")`), render plain-text and HTML email
bodies (`compose_email`), and send over SMTP (`send_email`), driven by
`main`.

Modelling choices:
* Python `datetime.date` values are represented by their proleptic
  Gregorian ordinal (`date.toordinal()`, an `Int`; 0001-01-01 = 1).
  Comparison of `date` objects coincides with comparison of ordinals and
  `d + timedelta(days=k)` is ordinal addition, so `filter_upcoming`'s
  window test is faithfully ordinal arithmetic.  (Date-range overflow
  past year 9999, which would raise `OverflowError` in Python, is not
  modelled; every claim is about in-range dates.)
* `parse_date(s, tz)` calls `tz.localize(parsed).date()`; `localize`
  attaches the zone without changing the wall-clock fields, so the
  result is independent of `tz` and we drop the argument.
* `strptime` with format `"%b %d, %Y"` is modelled after CPython's
  `_strptime`: a case-insensitive 3-letter month abbreviation, one or
  more whitespace characters, a day matching
  `3[01]|[12]\d|0[1-9]|[1-9]`, a literal comma, one or more whitespace
  characters, exactly four digits, end of string; then the
  `datetime(year, month, day)` constructor validates `1 <= year` and
  `day <= days_in_month(year, month)`.  (Python's `\s` also accepts
  exotic Unicode whitespace; we use ASCII whitespace, which covers every
  input the claims concern.)
* Ambient effects become parameters: `datetime.now(tz).date()` is a
  function from zone name to ordinal, `os.environ` is a partial map
  `String → Option String`, and SMTP traffic is a trace of events.
-/

set_option maxRecDepth 10000

namespace IpoEmail

/-- One scraped IPO row, the dictionary built in `get_upcoming_ipos`
(src/ipo_email.py lines 122-132): nine string fields. -/
structure Ipo where
  date : String
  symbol : String
  company : String
  exchange : String
  price_range : String
  shares_offered : String
  deal_size : String
  market_cap : String
  revenue : String
deriving DecidableEq, Repr

/-! ### Gregorian date arithmetic (Python `datetime.date.toordinal`) -/

/-- Gregorian leap-year test, as in Python's `calendar.isleap` /
`datetime`. -/
def isLeap (year : Nat) : Bool :=
  (year % 4 = 0 && year % 100 != 0) || year % 400 = 0

/-- Days in a month of a given year (`datetime._days_in_month`). -/
def daysInMonth (year month : Nat) : Nat :=
  match month with
  | 1 => 31
  | 2 => if isLeap year then 29 else 28
  | 3 => 31
  | 4 => 30
  | 5 => 31
  | 6 => 30
  | 7 => 31
  | 8 => 31
  | 9 => 30
  | 10 => 31
  | 11 => 30
  | 12 => 31
  | _ => 0

/-- Days in the given year strictly before the first of the given
month (`datetime._days_before_month`). -/
def daysBeforeMonth (year month : Nat) : Nat :=
  (List.range (month - 1)).foldl (fun acc i => acc + daysInMonth year (i + 1)) 0

/-- Proleptic Gregorian ordinal of a date, `date(y, m, d).toordinal()`:
0001-01-01 is day 1. -/
def toOrdinal (year month day : Nat) : Int :=
  (365 * ((year : Int) - 1)
    + ((year : Int) - 1) / 4
    - ((year : Int) - 1) / 100
    + ((year : Int) - 1) / 400)
  + (daysBeforeMonth year month : Int)
  + (day : Int)

/-! ### `parse_date` (src/ipo_email.py lines 137-156) -/

/-- Month number of a lowercased 3-letter abbreviation, the `%b`
alternation of CPython `_strptime` in the C locale (matched
case-insensitively). -/
def monthOfAbbrev (a b c : Char) : Option Nat :=
  match String.mk [a, b, c] with
  | "jan" => some 1
  | "feb" => some 2
  | "mar" => some 3
  | "apr" => some 4
  | "may" => some 5
  | "jun" => some 6
  | "jul" => some 7
  | "aug" => some 8
  | "sep" => some 9
  | "oct" => some 10
  | "nov" => some 11
  | "dec" => some 12
  | _ => none

/-- Numeric value of a list of decimal digit characters. -/
def natOfDigits (ds : List Char) : Nat :=
  ds.foldl (fun acc c => acc * 10 + (c.toNat - 48)) 0

/-- Model of `parse_date(s, tz)` = `datetime.strptime(s, "%b %d, %Y")`
followed by `tz.localize(...).date()` (src/ipo_email.py lines 137-156),
returning the date's proleptic Gregorian ordinal, or `none` when
`strptime` or the `datetime` constructor raises `ValueError`. -/
def parse_date (s : String) : Option Int :=
  match s.data with
  | m1 :: m2 :: m3 :: rest =>
    match monthOfAbbrev m1.toLower m2.toLower m3.toLower with
    | none => none
    | some month =>
      let ws1 := rest.takeWhile Char.isWhitespace
      let r1 := rest.dropWhile Char.isWhitespace
      if ws1.isEmpty then none
      else
        let ds := r1.takeWhile Char.isDigit
        let r2 := r1.dropWhile Char.isDigit
        let day := natOfDigits ds
        if ds.length = 0 || decide (2 < ds.length) || day = 0 || decide (31 < day) then
          none
        else
          match r2 with
          | ',' :: r3 =>
            let ws2 := r3.takeWhile Char.isWhitespace
            let r4 := r3.dropWhile Char.isWhitespace
            if ws2.isEmpty then none
            else
              match r4 with
              | [y1, y2, y3, y4] =>
                if y1.isDigit && y2.isDigit && y3.isDigit && y4.isDigit then
                  let year := natOfDigits [y1, y2, y3, y4]
                  if year = 0 || decide (daysInMonth year month < day) then none
                  else some (toOrdinal year month day)
                else none
              | _ => none
          | _ => none
  | _ => none

/-! ### `filter_upcoming` (src/ipo_email.py lines 159-186) -/

/-- Loop-body test of `filter_upcoming`: the record is kept when its
date parses and `today <= ipo_date <= end_date` where
`end_date = today + timedelta(days=days_ahead)` (lines 178-185). -/
def keep (today days_ahead : Int) (ipo : Ipo) : Bool :=
  match parse_date ipo.date with
  | none => false
  | some d => decide (today ≤ d ∧ d ≤ today + days_ahead)

/-- Model of `filter_upcoming(ipos, days_ahead, tz)` after `today =
datetime.now(tz).date()` has been evaluated; `today` is passed as the
ordinal it produced.  The Python for-loop appending matching entries is
a stable `List.filter`. -/
def filter_upcoming (ipos : List Ipo) (days_ahead : Int) (today : Int) : List Ipo :=
  ipos.filter (keep today days_ahead)

/-! ### `get_upcoming_ipos` (src/ipo_email.py lines 67-134)

The HTTP fetch and BeautifulSoup parse are external; the page is
embedded post-parse as `bodies : List (List (List String))` — the list
of `<tbody>` elements, each a list of `<tr>` rows, each a list of the
raw text contents of its `<td>` cells.  `get_text(strip=True)` is
`pyStrip`. -/

/-- Python `str.strip()`: drop leading and trailing whitespace. -/
def pyStrip (s : String) : String :=
  String.mk (((s.data.dropWhile Char.isWhitespace).reverse.dropWhile
    Char.isWhitespace).reverse)


/-- Body of the row loop (lines 101-132): rows with fewer than 8 cells
are skipped (`continue`); otherwise the first 8 trimmed cell texts map
positionally to the fields and `revenue = cells[8]` when a 9th cell
exists, else `"-"`. -/
def parse_row (cells : List String) : Option Ipo :=
  match cells with
  | c0 :: c1 :: c2 :: c3 :: c4 :: c5 :: c6 :: c7 :: rest =>
    some {
      date := pyStrip c0
      symbol := pyStrip c1
      company := pyStrip c2
      exchange := pyStrip c3
      price_range := pyStrip c4
      shares_offered := pyStrip c5
      deal_size := pyStrip c6
      market_cap := pyStrip c7
      revenue := match rest with
        | c8 :: _ => pyStrip c8
        | [] => "-" }
  | _ => none

/-- Model of `get_upcoming_ipos` after the HTTP fetch: raises
`ValueError` (the `Except.error`) when the page has no `<tbody>` at all
(lines 95-97), otherwise collects the accepted rows of every body in
page order. -/
def get_upcoming_ipos (bodies : List (List (List String))) : Except String (List Ipo) :=
  if bodies.isEmpty then
    Except.error "Unable to locate IPO table body on the calendar page"
  else
    Except.ok (bodies.flatMap (fun tbody => tbody.filterMap parse_row))

/-- Claimed row-acceptance rule, modelled from the claim's words
("accepts exactly the table rows with 8 or 9 cells") for comparison
with `parse_row`, which is the code's rule. -/
def parse_row_claimed (cells : List String) : Option Ipo :=
  if cells.length = 8 || cells.length = 9 then parse_row cells else none

/-! ### Environment and time-zone resolution -/

/-- `os.getenv(key, default)` over an environment modelled as a partial
map. -/
def getenvD (env : String → Option String) (key dflt : String) : String :=
  (env key).getD dflt

/-- The zone actually used: an explicit `tz=` argument wins, otherwise
`pytz.timezone(os.getenv('TIMEZONE', 'America/New_York'))` — the
duplicated default logic of src/ipo_email.py lines 173-174 and
200-201. -/
def resolve_tz (tzArg : Option String) (env : String → Option String) : String :=
  match tzArg with
  | some t => t
  | none => getenvD env "TIMEZONE" "America/New_York"

/-- `filter_upcoming` with its zone-defaulting preamble:
`nowDate z` is the ambient `datetime.now(pytz.timezone(z)).date()` as
an ordinal. -/
def filter_upcoming_tz (ipos : List Ipo) (days_ahead : Int) (tzArg : Option String)
    (env : String → Option String) (nowDate : String → Int) : List Ipo :=
  filter_upcoming ipos days_ahead (nowDate (resolve_tz tzArg env))

/-! ### `compose_email` (src/ipo_email.py lines 189-274) -/

/-- The composed MIME message: subject, envelope addresses, and the two
attached bodies. -/
structure EmailMsg where
  subject : String
  sender : String
  recipient : String
  plain : String
  html : String
deriving DecidableEq, Repr

/-- Python `"\n".join(parts)`. -/
def joinWith (sep : String) : List String → String
  | [] => ""
  | s :: rest =>
    match rest with
    | [] => s
    | _ :: _ => s ++ sep ++ joinWith sep rest

/-- Python `"".join(parts)`. -/
def concatAll : List String → String
  | [] => ""
  | s :: rest => s ++ concatAll rest

/-- The two-line plain-text header (lines 225-229): the column-name
line, an embedded newline, then 80 dashes. -/
def plain_header : String :=
  "IPO Date | Symbol | Company | Exchange | Price Range | Shares Offered | Deal Size | Market Cap\n"
    ++ String.mk (List.replicate 80 '-')

/-- One plain-text record row (lines 232-236). -/
def plain_line (ipo : Ipo) : String :=
  ipo.date ++ " | " ++ ipo.symbol ++ " | " ++ ipo.company ++ " | " ++ ipo.exchange ++ " | "
    ++ ipo.price_range ++ " | " ++ ipo.shares_offered ++ " | " ++ ipo.deal_size ++ " | "
    ++ ipo.market_cap

/-- One HTML table cell `<td>...</td>`. -/
def cellHtml (s : String) : String := "<td>" ++ s ++ "</td>"

/-- The eight field values rendered by `compose_email`, in column
order; `revenue` is not among them (lines 231-249). -/
def renderFields (ipo : Ipo) : List String :=
  [ipo.date, ipo.symbol, ipo.company, ipo.exchange, ipo.price_range,
   ipo.shares_offered, ipo.deal_size, ipo.market_cap]

/-- One HTML record row (lines 238-249): `<tr>`, one `<td>` cell per
rendered field in column order, `</tr>`, concatenated. -/
def html_row (ipo : Ipo) : String :=
  concatAll ("<tr>" :: ((renderFields ipo).map cellHtml ++ ["</tr>"]))

/-- HTML body text before the interpolated as-of date (line 254). -/
def html_pre1 : String :=
  "<html><body>" ++ "<p>Upcoming IPOs scheduled within the next week as of "

/-- HTML body text between the as-of date and the record rows (lines
254-262): rest of the intro paragraph, table opening, and the header
row inside `<thead>`. -/
def html_pre2 : String :=
  ":</p>"
    ++ "<table border=\x271\x27 cellpadding=\x275\x27 cellspacing=\x270\x27>"
    ++ "<thead>"
    ++ "<tr>"
    ++ "<th>IPO Date</th><th>Symbol</th><th>Company</th><th>Exchange</th>"
    ++ "<th>Price Range</th><th>Shares Offered</th><th>Deal Size</th><th>Market Cap</th>"
    ++ "</tr>"
    ++ "</thead>"
    ++ "<tbody>"

/-- HTML body text after the record rows (lines 264-269). -/
def html_post : String :=
  "</tbody>"
    ++ "</table>"
    ++ "<p style=\x27margin-top:1em;\x27>This information is sourced from StockAnalysis\x27 IPO calendar. "
    ++ "Please note that IPO dates and valuations may change as companies update "
    ++ "their filings【153199201465310†L83-L96】.</p>"
    ++ "</body></html>"

/-- The empty-case body (lines 215-217). -/
def no_ipos_plain (subject_date : String) : String :=
  "There are no IPOs scheduled within the upcoming week as of " ++ subject_date ++ "."

/-- Pure core of `compose_email` once the ambient
`subject_date = datetime.now(tz).strftime('%B %d, %Y')` and the
`os.environ` reads of sender and recipient have been evaluated. -/
def compose_email (ipos : List Ipo) (subject_date sender recipient : String) : EmailMsg :=
  let subject := "Upcoming IPOs – Week of " ++ subject_date
  if ipos.isEmpty then
    { subject := subject, sender := sender, recipient := recipient
      plain := no_ipos_plain subject_date
      html := "<p>" ++ no_ipos_plain subject_date ++ "</p>" }
  else
    { subject := subject, sender := sender, recipient := recipient
      plain := joinWith "\n" (plain_header :: ipos.map plain_line)
      html := html_pre1 ++ subject_date ++ html_pre2
        ++ concatAll (ipos.map html_row) ++ html_post }

/-- `compose_email` with its fallible `os.environ['GMAIL_USER']` and
`os.environ['RECIPIENT']` reads (lines 206-207), in access order; a
missing key raises `KeyError` (the `Except.error`). -/
def compose_email_env (env : String → Option String) (ipos : List Ipo)
    (subject_date : String) : Except String EmailMsg :=
  match env "GMAIL_USER" with
  | none => Except.error "KeyError: GMAIL_USER"
  | some sender =>
    match env "RECIPIENT" with
    | none => Except.error "KeyError: RECIPIENT"
    | some recipient => Except.ok (compose_email ipos subject_date sender recipient)

/-- `compose_email` with its zone-defaulting preamble; `nowFmt z` is
the ambient `datetime.now(pytz.timezone(z)).strftime('%B %d, %Y')`. -/
def compose_email_tz (ipos : List Ipo) (tzArg : Option String)
    (env : String → Option String) (nowFmt : String → String) : Except String EmailMsg :=
  compose_email_env env ipos (nowFmt (resolve_tz tzArg env))

/-! ### `send_email` and `main` (src/ipo_email.py lines 277-307) -/

/-- Observable SMTP traffic of `send_email`: connection, login, and
message submission, in order. -/
inductive SmtpEvent where
  | connect (host : String) (port : Nat)
  | login (user password : String)
  | sendmail (sender : String) (recipients : List String) (msg : EmailMsg)
deriving DecidableEq, Repr

/-- Model of `send_email` (lines 277-293): the three `os.environ`
reads, in source order, happen before any SMTP traffic; a missing key
raises `KeyError` and produces no traffic at all. -/
def send_email (env : String → Option String) (msg : EmailMsg) :
    Except String (List SmtpEvent) :=
  match env "GMAIL_USER" with
  | none => Except.error "KeyError: GMAIL_USER"
  | some gmail_user =>
    match env "GMAIL_PASS" with
    | none => Except.error "KeyError: GMAIL_PASS"
    | some gmail_password =>
      match env "RECIPIENT" with
      | none => Except.error "KeyError: RECIPIENT"
      | some recipient =>
        Except.ok [SmtpEvent.connect "smtp.gmail.com" 465,
                   SmtpEvent.login gmail_user gmail_password,
                   SmtpEvent.sendmail gmail_user [recipient] msg]

/-- Model of `main` (lines 296-307) after a successful fetch produced
`fetched`: filter with the fixed 7-day window, compose, send; any raised
exception is caught once at top level and the process exits 1 (and in
that case no SMTP traffic occurred, since `send_email` fails before
connecting). Returns (exit status, SMTP traffic). -/
def main_run (env : String → Option String) (fetched : List Ipo)
    (today : Int) (subject_date : String) : Nat × List SmtpEvent :=
  match compose_email_env env (filter_upcoming fetched 7 today) subject_date with
  | Except.error _ => (1, [])
  | Except.ok msg =>
    match send_email env msg with
    | Except.error _ => (1, [])
    | Except.ok events => (0, events)

/-! ### Counting and containment helpers for the body-shape claims -/

/-- Number of occurrences of the newline character in a string. -/
def countNL (s : String) : Nat := s.data.count '\n'

/-- Number of newline-separated lines of a string: newline count plus
one. -/
def numLines (s : String) : Nat := countNL s + 1

/-- Number of positions where the four characters `<tr>` occur in a
character list (the HTML table-row marker). -/
def countTR : List Char → Nat
  | [] => 0
  | c :: rest => (if List.take 4 (c :: rest) = ['<', 't', 'r', '>'] then 1 else 0) + countTR rest

/-- `<tr>`-marker count of a string. -/
def countTRs (s : String) : Nat := countTR s.data

/-- `sub` occurs contiguously inside `s`. -/
@[reducible] def Contains (s sub : String) : Prop := sub.data <:+: s.data

/-- No `<` among the last three characters of a list; appending such a
list on the left cannot let a `<tr>` marker straddle the seam. -/
@[reducible] def NoLtTail (l : List Char) : Prop := '<' ∉ l.reverse.take 3

theorem noLtTail_of_not_mem {l : List Char} (h : '<' ∉ l) : NoLtTail l := by
  intro hm
  exact h (List.mem_reverse.mp (List.take_subset _ _ hm))

theorem noLtTail_cons {c : Char} {l : List Char} (h : NoLtTail (c :: l)) : NoLtTail l := by
  intro hm
  apply h
  rw [List.reverse_cons, List.take_append_eq_append_take]
  exact List.mem_append_left _ hm

theorem noLtTail_append {a b : List Char} (ha : NoLtTail a) (hb : NoLtTail b) :
    NoLtTail (a ++ b) := by
  intro hm
  rw [List.reverse_append, List.take_append_eq_append_take] at hm
  rcases List.mem_append.mp hm with h | h
  · exact hb h
  · apply ha
    have hsub : List.take (3 - b.reverse.length) a.reverse ⊆ List.take 3 a.reverse := by
      intro x hx
      have h3 : 3 - b.reverse.length ≤ 3 := Nat.sub_le _ _
      have : List.take (3 - b.reverse.length) (List.take 3 a.reverse)
          = List.take (3 - b.reverse.length) a.reverse := by
        rw [List.take_take, Nat.min_eq_left h3]
      rw [← this] at hx
      exact List.take_subset _ _ hx
    exact hsub h

theorem countTR_eq_zero {l : List Char} (h : '<' ∉ l) : countTR l = 0 := by
  induction l with
  | nil => rfl
  | cons c rest ih =>
    have hc : ¬List.take 4 (c :: rest) = ['<', 't', 'r', '>'] := by
      intro he
      rw [List.take_succ_cons] at he
      have : c = '<' := (List.cons.injEq _ _ _ _).mp he |>.1
      exact h (this ▸ List.mem_cons_self c rest)
    have hr : '<' ∉ rest := fun hm => h (List.mem_cons_of_mem _ hm)
    show (if List.take 4 (c :: rest) = ['<', 't', 'r', '>'] then 1 else 0) + countTR rest = 0
    rw [if_neg hc, ih hr]

theorem countTR_append {a : List Char} (b : List Char) (ha : NoLtTail a) :
    countTR (a ++ b) = countTR a + countTR b := by
  induction a with
  | nil => simp [countTR]
  | cons c a ih =>
    have ih' := ih (noLtTail_cons ha)
    show countTR (c :: (a ++ b)) = countTR (c :: a) + countTR b
    simp only [countTR]
    rw [ih']
    have hhit : (if List.take 4 (c :: (a ++ b)) = ['<', 't', 'r', '>'] then 1 else 0)
        = (if List.take 4 (c :: a) = ['<', 't', 'r', '>'] then 1 else 0) := by
      by_cases h3 : 3 ≤ a.length
      · have : List.take 3 (a ++ b) = List.take 3 a := by
          rw [List.take_append_eq_append_take, Nat.sub_eq_zero_of_le h3,
            List.take_zero, List.append_nil]
        rw [List.take_succ_cons, List.take_succ_cons, this]
      · have hlen : (c :: a).length ≤ 3 := by
          simp only [List.length_cons]
          omega
        have hshort : List.take 4 (c :: a) ≠ ['<', 't', 'r', '>'] := by
          intro he
          have := congrArg List.length he
          rw [List.length_take] at this
          simp at this
          omega
        have hcne : c ≠ '<' := by
          intro hc
          apply ha
          have hrl : ((c :: a).reverse).length ≤ 3 := by
            rw [List.length_reverse]
            exact hlen
          rw [List.take_of_length_le hrl, List.reverse_cons]
          refine List.mem_append_right _ ?_
          rw [hc]
          exact List.mem_singleton_self _
        have hlong : List.take 4 (c :: (a ++ b)) ≠ ['<', 't', 'r', '>'] := by
          intro he
          rw [List.take_succ_cons] at he
          exact hcne ((List.cons.injEq _ _ _ _).mp he).1
        rw [if_neg hlong, if_neg hshort]
    omega

/-- A character-list block carrying its `<tr>`-marker count together
with a seam-safe tail. -/
@[reducible] def Blk (l : List Char) (n : Nat) : Prop := countTR l = n ∧ NoLtTail l

theorem Blk.append {a b : List Char} {m n : Nat} (ha : Blk a m) (hb : Blk b n) :
    Blk (a ++ b) (m + n) :=
  ⟨by rw [countTR_append b ha.2, ha.1, hb.1], noLtTail_append ha.2 hb.2⟩

theorem Blk.of_no_lt {s : String} (h : '<' ∉ s.data) : Blk s.data 0 :=
  ⟨countTR_eq_zero h, noLtTail_of_not_mem h⟩

theorem countNL_append (s t : String) : countNL (s ++ t) = countNL s + countNL t := by
  simp [countNL, String.data_append, List.count_append]

theorem countNL_eq_zero {s : String} (h : '\n' ∉ s.data) : countNL s = 0 := by
  simp [countNL, List.count_eq_zero, h]

theorem countNL_joinWith :
    ∀ (l : List String), (∀ s ∈ l, countNL s = 0) →
      countNL (joinWith "\n" l) = l.length - 1
  | [], _ => rfl
  | [s], h => by
    show countNL s = 1 - 1
    rw [h s (List.mem_cons_self _ _)]
  | s :: s2 :: t, h => by
    show countNL (s ++ "\n" ++ joinWith "\n" (s2 :: t)) = (s2 :: t).length + 1 - 1
    rw [countNL_append, countNL_append,
      countNL_joinWith (s2 :: t) (fun x hx => h x (List.mem_cons_of_mem _ hx)),
      h s (List.mem_cons_self _ _)]
    rw [show countNL "\n" = 1 from rfl]
    simp [Nat.add_comm]

theorem concatAll_data_cons (s : String) (rest : List String) :
    (concatAll (s :: rest)).data = s.data ++ (concatAll rest).data := by
  show (s ++ concatAll rest).data = _
  rw [String.data_append]

theorem Blk_concatAll_zero :
    ∀ {l : List String}, (∀ s ∈ l, Blk s.data 0) → Blk (concatAll l).data 0
  | [], _ => ⟨rfl, by decide⟩
  | s :: rest, h => by
    rw [concatAll_data_cons]
    exact (h s (List.mem_cons_self _ _)).append
      (Blk_concatAll_zero fun x hx => h x (List.mem_cons_of_mem _ hx))

theorem infix_append_right {p a : List Char} (b : List Char) (h : p <:+: a) :
    p <:+: a ++ b := by
  obtain ⟨u, v, huv⟩ := h
  exact ⟨u, v ++ b, by rw [← huv]; simp⟩

theorem infix_append_left {p b : List Char} (a : List Char) (h : p <:+: b) :
    p <:+: a ++ b := by
  obtain ⟨u, v, huv⟩ := h
  exact ⟨a ++ u, v, by rw [← huv]; simp⟩

theorem str_infix_extend_right {p s : String} (c : String) (h : p.data <:+: s.data) :
    p.data <:+: (s ++ c).data := by
  rw [String.data_append]
  exact infix_append_right _ h

theorem str_infix_extend_left {p s : String} (c : String) (h : p.data <:+: s.data) :
    p.data <:+: (c ++ s).data := by
  rw [String.data_append]
  exact infix_append_left _ h

theorem infix_concatAll {s : String} :
    ∀ {l : List String}, s ∈ l → s.data <:+: (concatAll l).data := by
  intro l
  induction l with
  | nil => intro h; cases h
  | cons x xs ih =>
    intro h
    rw [concatAll_data_cons]
    rcases List.mem_cons.mp h with rfl | hm
    · exact infix_append_right _ (List.infix_refl _)
    · exact infix_append_left _ (ih hm)

/-! ### Shared concrete fixtures -/

/-- A representative scraped record with the given date string. -/
def sampleIpo (d : String) : Ipo :=
  { date := d, symbol := "ABC", company := "Acme Corp", exchange := "NYSE"
    price_range := "$10-$12", shares_offered := "1,000,000", deal_size := "$10M"
    market_cap := "$100M", revenue := "$5M" }

/-- A scraped table row with 10 cells. -/
def row10 : List String :=
  ["Aug 4, 2025", "SYM", "Co", "NYSE", "$10-$12", "1M", "$10M", "$100M", "$5M", "extra"]

/-! ### Claim theorems -/

theorem keep_iff (today days_ahead : Int) (r : Ipo) :
    keep today days_ahead r = true ↔
      ∃ d, parse_date r.date = some d ∧ today ≤ d ∧ d ≤ today + days_ahead := by
  unfold keep
  cases hp : parse_date r.date with
  | none => simp
  | some d => simp

/-- C1: `filter_upcoming` retains exactly the records whose date field
parses and whose parsed date `d` satisfies
`today <= d <= today + days_ahead`, both endpoints inclusive; with
`today` = Aug 4 2025 and a 7-day window, a record dated Aug 4 2025
(today) and one dated Aug 11 2025 (today + 7) are kept, while records
dated Aug 12 2025 (today + 8) and Aug 3 2025 (today - 1) are
dropped. -/
theorem filter_upcoming_window_exact :
    (∀ (ipos : List Ipo) (days_ahead today : Int) (r : Ipo),
      r ∈ filter_upcoming ipos days_ahead today ↔
        r ∈ ipos ∧ ∃ d, parse_date r.date = some d ∧ today ≤ d ∧ d ≤ today + days_ahead)
    ∧ filter_upcoming
        [sampleIpo "Aug 4, 2025", sampleIpo "Aug 11, 2025",
         sampleIpo "Aug 12, 2025", sampleIpo "Aug 3, 2025"] 7 (toOrdinal 2025 8 4)
      = [sampleIpo "Aug 4, 2025", sampleIpo "Aug 11, 2025"] := by
  constructor
  · intro ipos days_ahead today r
    rw [filter_upcoming, List.mem_filter, keep_iff]
  · decide

/-- C7: the output of `filter_upcoming` is a subsequence of its input —
retained records keep their input order, and every retained record is
one of the input records, unmodified. -/
theorem filter_upcoming_stable_sublist :
    ∀ (ipos : List Ipo) (days_ahead today : Int),
      List.Sublist (filter_upcoming ipos days_ahead today) ipos
      ∧ ∀ r ∈ filter_upcoming ipos days_ahead today, r ∈ ipos := by
  intro ipos days_ahead today
  exact ⟨List.filter_sublist ipos, fun r hr => (List.mem_filter.mp hr).1⟩

/-- C4: a record whose date field does not parse under `"%b %d, %Y"` is
skipped: `filter_upcoming` never returns it and behaves on the rest of
the list exactly as if the record were absent, returning normally. -/
theorem filter_upcoming_skips_unparseable :
    ∀ (r : Ipo), parse_date r.date = none →
      ∀ (l1 l2 : List Ipo) (days_ahead today : Int),
        filter_upcoming (l1 ++ r :: l2) days_ahead today
          = filter_upcoming l1 days_ahead today ++ filter_upcoming l2 days_ahead today
        ∧ ∀ l : List Ipo, r ∉ filter_upcoming l days_ahead today := by
  intro r hp l1 l2 days_ahead today
  have hk : keep today days_ahead r = false := by
    unfold keep
    rw [hp]
  constructor
  · unfold filter_upcoming
    rw [List.filter_append, List.filter_cons, hk]
    simp
  · intro l hm
    have ht := (List.mem_filter.mp hm).2
    rw [hk] at ht
    exact Bool.noConfusion ht

/-- Witness for C4 at the concrete record dated `"TBA"`. -/
theorem filter_upcoming_skips_unparseable_witness :
    filter_upcoming [sampleIpo "Aug 4, 2025", sampleIpo "TBA"] 7 (toOrdinal 2025 8 4)
      = filter_upcoming [sampleIpo "Aug 4, 2025"] 7 (toOrdinal 2025 8 4)
        ++ filter_upcoming [] 7 (toOrdinal 2025 8 4)
    ∧ sampleIpo "TBA"
        ∉ filter_upcoming [sampleIpo "Aug 4, 2025", sampleIpo "TBA"] 7 (toOrdinal 2025 8 4) := by
  have h := filter_upcoming_skips_unparseable (sampleIpo "TBA") (by decide)
    [sampleIpo "Aug 4, 2025"] [] 7 (toOrdinal 2025 8 4)
  exact ⟨h.1, h.2 _⟩

/-- C6: `get_upcoming_ipos` raises the structural `ValueError` exactly
when the parsed page has no table body at all; any page with at least
one table body yields a normal result instead. -/
theorem get_upcoming_ipos_requires_tbody :
    ∀ (bodies : List (List (List String))),
      (get_upcoming_ipos bodies
          = Except.error "Unable to locate IPO table body on the calendar page"
        ↔ bodies = [])
      ∧ ∀ (b : List (List String)) (bs : List (List (List String))),
          ∃ l, get_upcoming_ipos (b :: bs) = Except.ok l := by
  intro bodies
  constructor
  · cases bodies with
    | nil => simp [get_upcoming_ipos]
    | cons b bs => simp [get_upcoming_ipos]
  · intro b bs
    exact ⟨_, rfl⟩

/-- C2 counterexample: on a page whose single row has 10 cells, the
code accepts the row (first 8 cells mapped to fields, 9th to revenue,
10th ignored), while the claimed rule — accept exactly the rows with 8
or 9 cells — rejects it; so the claim's acceptance rule disagrees with
the code. -/
theorem get_upcoming_ipos_ten_cell_cex :
    row10.length = 10
    ∧ get_upcoming_ipos [[row10]]
        = Except.ok [{ date := "Aug 4, 2025", symbol := "SYM", company := "Co"
                       exchange := "NYSE", price_range := "$10-$12", shares_offered := "1M"
                       deal_size := "$10M", market_cap := "$100M", revenue := "$5M" }]
    ∧ [[row10]].flatMap (fun tbody => tbody.filterMap parse_row_claimed) = [] :=
  ⟨by decide, by rfl, by decide⟩

/-- C2 (amended): `get_upcoming_ipos` accepts exactly the table rows
with at least 8 cells; for each accepted row the first 8
whitespace-trimmed cell texts map positionally to date, symbol,
company, exchange, price_range, shares_offered, deal_size, market_cap,
the 9th cell, if present, maps to revenue (else the placeholder `"-"`),
cells beyond the 9th are ignored, and every row with fewer than 8 cells
is silently skipped. -/
theorem get_upcoming_ipos_row_mapping :
    (∀ (b : List (List String)) (bs : List (List (List String))),
      get_upcoming_ipos (b :: bs)
        = Except.ok ((b :: bs).flatMap fun tbody => tbody.filterMap parse_row))
    ∧ (∀ cells : List String, cells.length < 8 → parse_row cells = none)
    ∧ (∀ c0 c1 c2 c3 c4 c5 c6 c7 rest,
        parse_row (c0 :: c1 :: c2 :: c3 :: c4 :: c5 :: c6 :: c7 :: rest)
          = some { date := pyStrip c0, symbol := pyStrip c1, company := pyStrip c2
                   exchange := pyStrip c3, price_range := pyStrip c4, shares_offered := pyStrip c5
                   deal_size := pyStrip c6, market_cap := pyStrip c7
                   revenue := match rest with
                     | c8 :: _ => pyStrip c8
                     | [] => "-" }) := by
  refine ⟨fun b bs => rfl, ?_, fun c0 c1 c2 c3 c4 c5 c6 c7 rest => rfl⟩
  intro cells h
  rcases cells with _ | ⟨c0, _ | ⟨c1, _ | ⟨c2, _ | ⟨c3, _ | ⟨c4, _ | ⟨c5, _ | ⟨c6, _ | ⟨c7, rest⟩⟩⟩⟩⟩⟩⟩⟩
  · rfl
  · rfl
  · rfl
  · rfl
  · rfl
  · rfl
  · rfl
  · rfl
  · exfalso
    simp only [List.length_cons] at h
    omega

/-- Witness for C2 (amended): a 2-cell row is skipped, and the 10-cell
page is mapped by `parse_row`. -/
theorem get_upcoming_ipos_row_mapping_witness :
    parse_row ["Aug 4, 2025", "SYM"] = none
    ∧ get_upcoming_ipos [[row10]]
        = Except.ok ([[row10]].flatMap fun tbody => tbody.filterMap parse_row) :=
  ⟨get_upcoming_ipos_row_mapping.2.1 ["Aug 4, 2025", "SYM"] (by decide),
   get_upcoming_ipos_row_mapping.1 [row10] []⟩

/-- C5: when any of GMAIL_USER, GMAIL_PASS or RECIPIENT is absent from
the environment, the `KeyError` is raised at the first access of the
missing value, no SMTP traffic at all is produced (in particular no
connection), and the run exits with status 1. -/
theorem missing_config_blocks_send :
    ∀ (env : String → Option String) (fetched : List Ipo) (today : Int)
      (subject_date : String),
      (env "GMAIL_USER" = none ∨ env "GMAIL_PASS" = none ∨ env "RECIPIENT" = none) →
      main_run env fetched today subject_date = (1, [])
      ∧ ∀ msg : EmailMsg, ∃ e, send_email env msg = Except.error e := by
  intro env fetched today sd h
  have hsend : ∀ msg : EmailMsg, ∃ e, send_email env msg = Except.error e := by
    intro msg
    unfold send_email
    rcases h with h | h | h
    · rw [h]
      exact ⟨_, rfl⟩
    · cases hu : env "GMAIL_USER" with
      | none => exact ⟨_, rfl⟩
      | some u =>
        rw [h]
        exact ⟨_, rfl⟩
    · cases hu : env "GMAIL_USER" with
      | none => exact ⟨_, rfl⟩
      | some u =>
        cases hp2 : env "GMAIL_PASS" with
        | none => exact ⟨_, rfl⟩
        | some p =>
          rw [h]
          exact ⟨_, rfl⟩
  refine ⟨?_, hsend⟩
  unfold main_run
  cases hc : compose_email_env env (filter_upcoming fetched 7 today) sd with
  | error e => rfl
  | ok msg =>
    obtain ⟨e, he⟩ := hsend msg
    show (match send_email env msg with
      | Except.error _ => (1, ([] : List SmtpEvent))
      | Except.ok events => (0, events)) = (1, [])
    rw [he]

/-- Witness for C5: with only GMAIL_PASS missing, the run exits 1 with
no SMTP traffic. -/
theorem missing_config_blocks_send_witness :
    main_run (fun k => if k = "GMAIL_PASS" then none else some "x") [] 0 "August 04, 2025"
      = (1, []) :=
  (missing_config_blocks_send (fun k => if k = "GMAIL_PASS" then none else some "x")
    [] 0 "August 04, 2025" (Or.inr (Or.inl (by decide)))).1

/-- C9: with no TIMEZONE in the environment and no explicit `tz`
argument, both `filter_upcoming` and `compose_email` resolve the zone
to the fixed fallback America/New_York, and so compute "today" and the
as-of date in that zone. -/
theorem timezone_defaults_to_new_york :
    ∀ (env : String → Option String), env "TIMEZONE" = none →
      resolve_tz none env = "America/New_York"
      ∧ (∀ (ipos : List Ipo) (days_ahead : Int) (nowDate : String → Int),
          filter_upcoming_tz ipos days_ahead none env nowDate
            = filter_upcoming ipos days_ahead (nowDate "America/New_York"))
      ∧ (∀ (ipos : List Ipo) (nowFmt : String → String),
          compose_email_tz ipos none env nowFmt
            = compose_email_env env ipos (nowFmt "America/New_York")) := by
  intro env h
  have hz : resolve_tz none env = "America/New_York" := by
    unfold resolve_tz getenvD
    rw [h]
    rfl
  refine ⟨hz, fun ipos da nd => ?_, fun ipos nf => ?_⟩
  · unfold filter_upcoming_tz
    rw [hz]
  · unfold compose_email_tz
    rw [hz]

/-- Witness for C9 at the empty environment. -/
theorem timezone_defaults_to_new_york_witness :
    resolve_tz none (fun _ => none) = "America/New_York"
    ∧ filter_upcoming_tz [sampleIpo "Aug 4, 2025"] 7 none (fun _ => none)
        (fun _ => toOrdinal 2025 8 4)
      = filter_upcoming [sampleIpo "Aug 4, 2025"] 7 (toOrdinal 2025 8 4) := by
  have h := timezone_defaults_to_new_york (fun _ => none) rfl
  exact ⟨h.1, h.2.1 [sampleIpo "Aug 4, 2025"] 7 (fun _ => toOrdinal 2025 8 4)⟩

theorem plain_line_congr {a b : Ipo} (h : renderFields a = renderFields b) :
    plain_line a = plain_line b := by
  simp only [renderFields, List.cons.injEq, and_true] at h
  obtain ⟨h1, h2, h3, h4, h5, h6, h7, h8⟩ := h
  simp [plain_line, h1, h2, h3, h4, h5, h6, h7, h8]

theorem map_congr_of_renderFields {f : Ipo → String}
    (hf : ∀ a b : Ipo, renderFields a = renderFields b → f a = f b) :
    ∀ (l1 l2 : List Ipo), l1.map renderFields = l2.map renderFields →
      l1.map f = l2.map f
  | [], [], _ => rfl
  | [], _ :: _, h => by simp at h
  | _ :: _, [], h => by simp at h
  | a :: l1, b :: l2, h => by
    simp only [List.map_cons, List.cons.injEq] at h ⊢
    exact ⟨hf a b h.1, map_congr_of_renderFields hf l1 l2 h.2⟩

/-- C8: `compose_email` never reads the revenue field — two record
lists that agree on the other eight fields of every record produce
identical messages (same subject, addresses, plain body and HTML
body). -/
theorem compose_email_ignores_revenue :
    ∀ (l1 l2 : List Ipo) (subject_date sender recipient : String),
      l1.map renderFields = l2.map renderFields →
      compose_email l1 subject_date sender recipient
        = compose_email l2 subject_date sender recipient := by
  intro l1 l2 sd s r h
  have hempty : l1.isEmpty = l2.isEmpty := by
    cases l1 <;> cases l2 <;> simp_all
  have hp : l1.map plain_line = l2.map plain_line :=
    map_congr_of_renderFields (fun a b hab => plain_line_congr hab) l1 l2 h
  have hh : l1.map html_row = l2.map html_row :=
    map_congr_of_renderFields (fun a b hab => by unfold html_row; rw [hab]) l1 l2 h
  unfold compose_email
  rw [hempty, hp, hh]

/-- Witness for C8: changing only a record's revenue leaves the
composed message unchanged. -/
theorem compose_email_ignores_revenue_witness :
    compose_email [sampleIpo "Aug 4, 2025"] "August 04, 2025"
        "sender@example.com" "to@example.com"
      = compose_email [{ sampleIpo "Aug 4, 2025" with revenue := "$999M" }]
        "August 04, 2025" "sender@example.com" "to@example.com" :=
  compose_email_ignores_revenue _ _ _ _ _ (by decide)

theorem str_infix_cellHtml (f : String) : f.data <:+: (cellHtml f).data := by
  unfold cellHtml
  exact str_infix_extend_right _ (str_infix_extend_left _ (List.infix_refl _))

/-- A record with markup in its company field. -/
def evilIpo : Ipo := { sampleIpo "Aug 4, 2025" with company := "<b>Pwn</b>" }

/-- C10: `compose_email` embeds every rendered field string into the
HTML body verbatim, with no HTML escaping — markup characters in a
scraped field value appear unescaped inside the generated table
cells. -/
theorem compose_email_embeds_fields_verbatim :
    ∀ (ipos : List Ipo) (subject_date sender recipient : String) (ipo : Ipo),
      ipo ∈ ipos →
      ∀ f ∈ renderFields ipo,
        Contains (compose_email ipos subject_date sender recipient).html f := by
  intro ipos sd s r ipo hmem f hf
  cases ipos with
  | nil => cases hmem
  | cons a l =>
    have h1 : f.data <:+: (cellHtml f).data := str_infix_cellHtml f
    have h2 : (cellHtml f).data <:+: (html_row ipo).data := by
      unfold html_row
      exact infix_concatAll
        (List.mem_cons_of_mem _ (List.mem_append_left _ (List.mem_map_of_mem _ hf)))
    have h3 : (html_row ipo).data <:+: (concatAll ((a :: l).map html_row)).data :=
      infix_concatAll (List.mem_map_of_mem _ hmem)
    have h4 : (concatAll ((a :: l).map html_row)).data
        <:+: (html_pre1 ++ sd ++ html_pre2
              ++ concatAll ((a :: l).map html_row) ++ html_post).data :=
      str_infix_extend_right _ (str_infix_extend_left _ (List.infix_refl _))
    exact ((h1.trans h2).trans h3).trans h4

theorem countNL_plain_line {ipo : Ipo}
    (h : ∀ f ∈ renderFields ipo, '\n' ∉ f.data) : countNL (plain_line ipo) = 0 := by
  have h1 := countNL_eq_zero (h ipo.date (by simp [renderFields]))
  have h2 := countNL_eq_zero (h ipo.symbol (by simp [renderFields]))
  have h3 := countNL_eq_zero (h ipo.company (by simp [renderFields]))
  have h4 := countNL_eq_zero (h ipo.exchange (by simp [renderFields]))
  have h5 := countNL_eq_zero (h ipo.price_range (by simp [renderFields]))
  have h6 := countNL_eq_zero (h ipo.shares_offered (by simp [renderFields]))
  have h7 := countNL_eq_zero (h ipo.deal_size (by simp [renderFields]))
  have h8 := countNL_eq_zero (h ipo.market_cap (by simp [renderFields]))
  simp [plain_line, countNL_append, h1, h2, h3, h4, h5, h6, h7, h8,
    show countNL " | " = 0 from rfl]

theorem Blk_html_row {ipo : Ipo}
    (h : ∀ f ∈ renderFields ipo, '<' ∉ f.data) : Blk (html_row ipo).data 1 := by
  unfold html_row
  rw [concatAll_data_cons]
  have hrest : Blk (concatAll ((renderFields ipo).map cellHtml ++ ["</tr>"])).data 0 := by
    apply Blk_concatAll_zero
    intro x hx
    rcases List.mem_append.mp hx with hm | hm
    · obtain ⟨f, hf, rfl⟩ := List.mem_map.mp hm
      show Blk ("<td>" ++ f ++ "</td>").data 0
      rw [String.data_append, String.data_append]
      exact ((by decide : Blk ("<td>" : String).data 0).append
        (Blk.of_no_lt (h f hf))).append (by decide : Blk ("</td>" : String).data 0)
    · rw [List.mem_singleton.mp hm]
      decide
  exact (by decide : Blk ("<tr>" : String).data 1).append hrest

theorem numLines_compose_plain {a : Ipo} {l : List Ipo} (sd s r : String)
    (h : ∀ ipo ∈ a :: l, countNL (plain_line ipo) = 0) :
    numLines (compose_email (a :: l) sd s r).plain = (a :: l).length + 2 := by
  have hrows : ∀ x ∈ (a :: l).map plain_line, countNL x = 0 := by
    intro x hx
    obtain ⟨ipo, hip, rfl⟩ := List.mem_map.mp hx
    exact h ipo hip
  have hjoin := countNL_joinWith ((a :: l).map plain_line) hrows
  show countNL (joinWith "\n" (plain_header :: (a :: l).map plain_line)) + 1
    = (a :: l).length + 2
  rw [show joinWith "\n" (plain_header :: (a :: l).map plain_line)
      = plain_header ++ "\n" ++ joinWith "\n" ((a :: l).map plain_line) from rfl]
  rw [countNL_append, countNL_append, hjoin,
    show countNL plain_header = 1 from by decide, show countNL "\n" = 1 from rfl]
  simp [List.length_map, List.length_cons]
  omega

theorem countTRs_compose_html {a : Ipo} {l : List Ipo} (sd s r : String)
    (h : ∀ ipo ∈ a :: l, Blk (html_row ipo).data 1)
    (hsd : '<' ∉ sd.data) :
    countTRs (compose_email (a :: l) sd s r).html = (a :: l).length + 1 := by
  have hrows : ∀ (m : List Ipo), (∀ ipo ∈ m, Blk (html_row ipo).data 1) →
      Blk (concatAll (m.map html_row)).data m.length := by
    intro m
    induction m with
    | nil => intro _; exact ⟨rfl, by decide⟩
    | cons x xs ih =>
      intro hm
      rw [List.map_cons, concatAll_data_cons]
      have hx := (hm x (List.mem_cons_self _ _)).append
        (ih fun y hy => hm y (List.mem_cons_of_mem _ hy))
      simpa [Nat.add_comm] using hx
  have hb : Blk (compose_email (a :: l) sd s r).html.data
      ((((0 + 0) + 1) + (a :: l).length) + 0) := by
    show Blk (html_pre1 ++ sd ++ html_pre2
        ++ concatAll ((a :: l).map html_row) ++ html_post).data _
    simp only [String.data_append]
    exact ((((by decide : Blk html_pre1.data 0).append
      (Blk.of_no_lt hsd)).append
      (by decide : Blk html_pre2.data 1)).append
      (hrows _ h)).append
      (by decide : Blk html_post.data 0)
  show countTR (compose_email (a :: l) sd s r).html.data = (a :: l).length + 1
  rw [hb.1]
  omega

/-- C3 counterexample: composing the single-record list
`[sampleIpo "Aug 4, 2025"]` yields a plain-text body of 3
newline-separated lines, not n + 1 = 2 (the header is two lines: column
names plus the dash separator), and an HTML body with 2 `<tr>` markers,
not n = 1 (the `<thead>` header row also carries one). -/
theorem compose_email_body_shape_cex :
    numLines (compose_email [sampleIpo "Aug 4, 2025"] "August 04, 2025"
        "sender@example.com" "to@example.com").plain = 3
    ∧ countTRs (compose_email [sampleIpo "Aug 4, 2025"] "August 04, 2025"
        "sender@example.com" "to@example.com").html = 2
    ∧ 3 ≠ 1 + 1 ∧ 2 ≠ 1 :=
  ⟨by decide, by decide, by decide, by decide⟩

/-- C3 (amended): for an empty record sequence both bodies contain a
"no IPOs scheduled" statement together with the as-of date; for a
non-empty sequence of n records whose rendered fields contain no
newline and no markup, and a markup-free as-of date, the plain-text
body consists of exactly n + 2 newline-separated lines (n record rows
plus the two-line header) and the HTML body contains exactly n + 1
table-row markers (n record rows plus the header row in `<thead>`). -/
theorem compose_email_body_shape :
    (∀ subject_date sender recipient : String,
      Contains (compose_email [] subject_date sender recipient).plain "no IPOs scheduled"
      ∧ Contains (compose_email [] subject_date sender recipient).plain subject_date
      ∧ Contains (compose_email [] subject_date sender recipient).html "no IPOs scheduled"
      ∧ Contains (compose_email [] subject_date sender recipient).html subject_date)
    ∧ (∀ (ipos : List Ipo) (subject_date sender recipient : String),
        ipos ≠ [] →
        (∀ ipo ∈ ipos, ∀ f ∈ renderFields ipo, '\n' ∉ f.data ∧ '<' ∉ f.data) →
        '<' ∉ subject_date.data →
        numLines (compose_email ipos subject_date sender recipient).plain
          = ipos.length + 2
        ∧ countTRs (compose_email ipos subject_date sender recipient).html
          = ipos.length + 1) := by
  constructor
  · intro sd s r
    have hlit : ("no IPOs scheduled" : String).data
        <:+: ("There are no IPOs scheduled within the upcoming week as of " : String).data := by
      decide
    refine ⟨?_, ?_, ?_, ?_⟩
    · exact str_infix_extend_right "." (str_infix_extend_right sd hlit)
    · exact str_infix_extend_right "." (str_infix_extend_left _ (List.infix_refl _))
    · exact str_infix_extend_right "</p>" (str_infix_extend_left "<p>"
        (str_infix_extend_right "." (str_infix_extend_right sd hlit)))
    · exact str_infix_extend_right "</p>" (str_infix_extend_left "<p>"
        (str_infix_extend_right "." (str_infix_extend_left _ (List.infix_refl _))))
  · intro ipos sd s r hne h hsd
    obtain ⟨a, l, rfl⟩ := List.exists_cons_of_ne_nil hne
    have hplain : ∀ ipo ∈ a :: l, countNL (plain_line ipo) = 0 := fun ipo hip =>
      countNL_plain_line (fun f hf => (h ipo hip f hf).1)
    have hhtml : ∀ ipo ∈ a :: l, Blk (html_row ipo).data 1 := fun ipo hip =>
      Blk_html_row (fun f hf => (h ipo hip f hf).2)
    exact ⟨numLines_compose_plain sd s r hplain, countTRs_compose_html sd s r hhtml hsd⟩

/-- Witness for C3 (amended) at a concrete one-record list. -/
theorem compose_email_body_shape_witness :
    numLines (compose_email [sampleIpo "Aug 4, 2025"] "August 04, 2025"
        "sender@example.com" "to@example.com").plain = 1 + 2
    ∧ countTRs (compose_email [sampleIpo "Aug 4, 2025"] "August 04, 2025"
        "sender@example.com" "to@example.com").html = 1 + 1 :=
  compose_email_body_shape.2 [sampleIpo "Aug 4, 2025"] "August 04, 2025"
    "sender@example.com" "to@example.com" (by decide) (by decide) (by decide)

/-- Witness for C10: a `<b>` tag scraped into the company field appears
verbatim in the HTML body. -/
theorem compose_email_embeds_fields_verbatim_witness :
    Contains (compose_email [evilIpo] "August 04, 2025"
        "sender@example.com" "to@example.com").html "<b>Pwn</b>" :=
  compose_email_embeds_fields_verbatim [evilIpo] "August 04, 2025"
    "sender@example.com" "to@example.com" evilIpo (by decide) "<b>Pwn</b>" (by decide)

end IpoEmail
